import Mathlib

/-!
Shallow embedding of the durable lease-based work queue of `filmdex`
(`src/shared/prisma-request-queue-storage.ts` together with the Prisma
`RequestQueue` model and `RequestStatus` enum of `prisma/schema.prisma`).

The Prisma table is modelled as a list of rows (`DB`), kept in insertion
order; timestamps are naturals (milliseconds), `Float` priorities are
rationals (the code only ever compares priorities, and every literal the
code or the scenarios use is exactly representable), and the opaque
serialized blobs (`headers`, `payload`, `userData`, `metadata`) are kept
as the strings the code stores.  Each Prisma call becomes a pure state
transformer; a call that can throw (`markProcessed`, `markFailed`,
`retry` on an unknown id, mapped from Prisma error P2025 or the explicit
`throw new Error`) returns `Except`.  The `$transaction` wrapper of
`next()` makes the select-and-update one atomic step, which is how
`next` is embedded: one function from state to state.
-/

namespace Filmdex

/-- Prisma enum `RequestStatus` (schema.prisma). -/
inductive RequestStatus
  | PENDING
  | PROCESSING
  | PROCESSED
  | FAILED
  | RETRYING
deriving DecidableEq, Repr

/-- The `@crawlus/core` `RequestStatus` union type of lowercase literals,
used on `QueuedRequest` values returned to callers. -/
inductive RequestStatusCore
  | pending
  | processing
  | processed
  | failed
  | retrying
deriving DecidableEq, Repr

/-- A `Request` as received by `enqueue` / `enqueueBatch`.  `method`,
`headers`, `payload`, `userData`, `uniqueKey` are optional; blobs are the
serialized strings the storage keeps. -/
structure Request where
  url : String
  method : Option String := none
  headers : Option String := none
  payload : Option String := none
  userData : Option String := none
  uniqueKey : Option String := none
deriving DecidableEq, Repr

/-- One row of the `RequestQueue` table (schema.prisma, model
`RequestQueue`).  `id` (a cuid in the code) is modelled as a natural
drawn from a fresh counter; `updatedAt` is not modelled (no claim reads
it). -/
structure Row where
  id : Nat
  queueName : String
  url : String
  method : String
  headers : Option String
  payload : Option String
  userData : Option String
  metadata : Option String
  uniqueKey : Option String
  priority : ℚ
  status : RequestStatus
  retryCount : Nat
  maxRetries : Nat
  lastError : Option String
  createdAt : Nat
  processingStartedAt : Option Nat
  processingCompletedAt : Option Nat
deriving DecidableEq, Repr

/-- The table state: rows in insertion order plus the fresh-id counter. -/
structure DB where
  rows : List Row
  nextId : Nat
deriving DecidableEq, Repr

def emptyDB : DB := ⟨[], 0⟩

/-- The private `config` object built by the constructor of
`PrismaRequestQueueStorage`. -/
structure Config where
  name : String
  defaultPriority : ℚ
  retryLimit : Nat
  processingTimeout : Nat
  cleanupInterval : Nat
deriving DecidableEq, Repr

/-- The constructor hard-codes every field except the queue name. -/
def mkConfig (name : String) : Config :=
  { name := name
    defaultPriority := mkRat 1 2
    retryLimit := 3
    processingTimeout := 300000
    cleanupInterval := 60000 }

/-- JavaScript `a || b` on an optional string: the fallback fires on
`undefined`/`null` and on the empty string (both falsy). -/
def jsOr : Option String → String → String
  | some s, dflt => if s = "" then dflt else s
  | none, dflt => dflt

/-- Does inserting a row with this `(queueName, uniqueKey)` violate the
`@@unique([queueName, uniqueKey])` constraint?  SQL unique constraints
treat NULLs as distinct, so a null `uniqueKey` never conflicts. -/
def conflictsB (db : DB) (qn : String) (uk : Option String) : Bool :=
  match uk with
  | none => false
  | some k => db.rows.any (fun r => decide (r.queueName = qn ∧ r.uniqueKey = some k))

/-- Insert the row built from the fresh id, unless its key conflicts, in
which case the state is unchanged (the P2002 catch in `enqueue`, and the
per-row skip of `createMany` with `skipDuplicates`). -/
def tryInsert (db : DB) (mk : Nat → Row) : DB :=
  let row := mk db.nextId
  if conflictsB db row.queueName row.uniqueKey then db
  else ⟨db.rows ++ [row], db.nextId + 1⟩

/-- The `data` object of `prisma.requestQueue.create` in `enqueue`:
note `uniqueKey: request.uniqueKey` (stored as given, null when absent)
and `priority: priority ?? config.defaultPriority ?? 1`.  Fields the
code does not set take their schema defaults (`maxRetries 3`,
`createdAt now`, null timestamps). -/
def enqueueRow (cfg : Config) (req : Request) (prio : Option ℚ) (now id : Nat) : Row :=
  { id := id
    queueName := cfg.name
    url := req.url
    method := jsOr req.method "GET"
    headers := req.headers
    payload := req.payload
    userData := req.userData
    metadata := none
    uniqueKey := req.uniqueKey
    priority := prio.getD cfg.defaultPriority
    status := .PENDING
    retryCount := 0
    maxRetries := 3
    lastError := none
    createdAt := now
    processingStartedAt := none
    processingCompletedAt := none }

/-- Method `enqueue(request, priority?)`: insert a PENDING row; a duplicate-key
violation (P2002) is caught and swallowed. -/
def enqueue (cfg : Config) (req : Request) (prio : Option ℚ) (now : Nat) (db : DB) : DB :=
  tryInsert db (enqueueRow cfg req prio now)

/-- The per-request `data` element of `createMany` in `enqueueBatch`:
identical to `enqueueRow` except `uniqueKey: request.uniqueKey || request.url`. -/
def batchRow (cfg : Config) (req : Request) (prio : Option ℚ) (now id : Nat) : Row :=
  { enqueueRow cfg req prio now id with uniqueKey := some (jsOr req.uniqueKey req.url) }

/-- Method `enqueueBatch(requests, priority?)`: `createMany` with
`skipDuplicates: true`, i.e. each row inserted in order, conflicting
rows skipped. -/
def enqueueBatch (cfg : Config) (reqs : List Request) (prio : Option ℚ) (now : Nat)
    (db : DB) : DB :=
  reqs.foldl (fun d req => tryInsert d (batchRow cfg req prio now)) db

/-- The strict order `findFirst` sorts by: `priority: desc` first, then
`createdAt: asc`. -/
def better (a b : Row) : Prop :=
  b.priority < a.priority ∨ (a.priority = b.priority ∧ a.createdAt < b.createdAt)

instance (a b : Row) : Decidable (better a b) :=
  inferInstanceAs (Decidable (_ ∨ _ ∧ _))

/-- Scan for the first row under the order (`priority desc, createdAt
asc`); on full ties the earlier row in table order wins. -/
def pickBest : Row → List Row → Row
  | best, [] => best
  | best, r :: rs => if better r best then pickBest r rs else pickBest best rs

/-- The rows the `findFirst` of `next`/`peek` ranges over: this queue's
PENDING rows. -/
def pendingRows (cfg : Config) (db : DB) : List Row :=
  db.rows.filter (fun r => decide (r.queueName = cfg.name ∧ r.status = .PENDING))

/-- The `findFirst` with the where/orderBy of `next` and `peek`. -/
def findFirstPending (cfg : Config) (db : DB) : Option Row :=
  match pendingRows cfg db with
  | [] => none
  | r :: rs => some (pickBest r rs)

/-- Prisma `update where id` applied to the table. -/
def updateRow (db : DB) (id : Nat) (f : Row → Row) : DB :=
  ⟨db.rows.map (fun r => if r.id = id then f r else r), db.nextId⟩

/-- Method `mapStatusFromDb` (default branch `|| 'pending'` is unreachable on
the closed enum). -/
def mapStatusFromDb : RequestStatus → RequestStatusCore
  | .PENDING => .pending
  | .PROCESSING => .processing
  | .PROCESSED => .processed
  | .FAILED => .failed
  | .RETRYING => .retrying

/-- The `QueuedRequest` shape returned to callers (`@crawlus/core`),
as populated by `mapToQueuedRequest`. -/
structure QueuedRequest where
  id : Nat
  request : Request
  priority : ℚ
  status : RequestStatusCore
  enqueuedAt : Nat
  processedAt : Option Nat
  retryCount : Nat
  lastError : Option String
  metadata : Option String
deriving DecidableEq, Repr

/-- Method `mapToQueuedRequest(dbRequest)`: rebuilds the `Request` from the row
and copies the queue bookkeeping; `processedAt` comes from
`processingCompletedAt || undefined`. -/
def mapToQueuedRequest (r : Row) : QueuedRequest :=
  { id := r.id
    request :=
      { url := r.url
        method := some r.method
        headers := r.headers
        payload := r.payload
        userData := r.userData
        uniqueKey := none }
    priority := r.priority
    status := mapStatusFromDb r.status
    enqueuedAt := r.createdAt
    processedAt := r.processingCompletedAt
    retryCount := r.retryCount
    lastError := r.lastError
    metadata := r.metadata }

/-- Method `next()`: inside one `$transaction`, `findFirst` the best PENDING
row; if none, return null; else update it to PROCESSING with
`processingStartedAt: new Date()` and return the row object fetched
before the update. -/
def next (cfg : Config) (now : Nat) (db : DB) : Option QueuedRequest × DB :=
  match findFirstPending cfg db with
  | none => (none, db)
  | some r =>
      (some (mapToQueuedRequest r),
       updateRow db r.id (fun x =>
         { x with status := .PROCESSING, processingStartedAt := some now }))

/-- Method `markProcessed(requestId)`: `update where id` to PROCESSED with
`processingCompletedAt` stamped; Prisma raises P2025 when the id does
not exist. -/
def markProcessed (id now : Nat) (db : DB) : Except String DB :=
  match db.rows.find? (fun r => decide (r.id = id)) with
  | none => .error "P2025"
  | some _ =>
      .ok (updateRow db id (fun x =>
        { x with status := .PROCESSED, processingCompletedAt := some now }))

/-- The update `markFailed` writes once it has loaded row `r`:
`shouldRetry = retryable !== false && r.retryCount < config.retryLimit`;
status RETRYING or FAILED accordingly, always recording `lastError` and
`processingCompletedAt`. -/
def markFailedRow (cfg : Config) (err : String) (retryable : Option Bool) (now : Nat)
    (r x : Row) : Row :=
  { x with
    status := if retryable ≠ some false ∧ r.retryCount < cfg.retryLimit
      then .RETRYING else .FAILED
    lastError := some err
    processingCompletedAt := some now }

/-- Method `markFailed(requestId, error, retryable?)`: load the row
(throwing when absent) and apply `markFailedRow`. -/
def markFailed (cfg : Config) (id : Nat) (err : String) (retryable : Option Bool)
    (now : Nat) (db : DB) : Except String DB :=
  match db.rows.find? (fun r => decide (r.id = id)) with
  | none => .error "not found"
  | some r => .ok (updateRow db id (markFailedRow cfg err retryable now r))

/-- The update `retry` writes once it has loaded row `r`: PENDING with
`priority ?? request.priority`, `retryCount + 1`, both lease timestamps
cleared. -/
def retryRow (prio : Option ℚ) (r x : Row) : Row :=
  { x with
    status := .PENDING
    priority := prio.getD r.priority
    retryCount := r.retryCount + 1
    processingStartedAt := none
    processingCompletedAt := none }

/-- Method `retry(requestId, priority?)`: load the row (throwing when
absent) and apply `retryRow`. -/
def retry (id : Nat) (prio : Option ℚ) (db : DB) : Except String DB :=
  match db.rows.find? (fun r => decide (r.id = id)) with
  | none => .error "not found"
  | some r => .ok (updateRow db id (retryRow prio r))

/-- The `where` clause of the stale-lease sweep in
`startCleanupInterval`: this queue, PROCESSING, and
`processingStartedAt < cutoffTime` with `cutoffTime = now − processingTimeout`
(SQL `<` on a NULL column matches nothing). -/
def reclaimMatchesB (cfg : Config) (now : Nat) (r : Row) : Bool :=
  decide (r.queueName = cfg.name) && decide (r.status = RequestStatus.PROCESSING) &&
    (match r.processingStartedAt with
     | some t => decide (t < now - cfg.processingTimeout)
     | none => false)

/-- The per-row effect of the sweep's `updateMany`: matching rows go to
RETRYING with `retryCount` incremented; others are untouched. -/
def reclaimRow (cfg : Config) (now : Nat) (r : Row) : Row :=
  if reclaimMatchesB cfg now r then
    { r with status := .RETRYING, retryCount := r.retryCount + 1 }
  else r

/-- One run of the body of `startCleanupInterval`: the bulk conditional
`updateMany`. -/
def reclaimSweep (cfg : Config) (now : Nat) (db : DB) : DB :=
  ⟨db.rows.map (reclaimRow cfg now), db.nextId⟩

/-- Method `remove(requestIds)`: `deleteMany` by id within this queue. -/
def removeIds (cfg : Config) (ids : List Nat) (db : DB) : DB :=
  ⟨db.rows.filter (fun r => !(decide (r.id ∈ ids) && decide (r.queueName = cfg.name))),
   db.nextId⟩

/-- Method `clear()`: `deleteMany` for this queue. -/
def clearQueue (cfg : Config) (db : DB) : DB :=
  ⟨db.rows.filter (fun r => !decide (r.queueName = cfg.name)), db.nextId⟩

/-- The `QueueStats` record returned by `getStats`. -/
structure QueueStats where
  total : Nat
  pending : Nat
  processing : Nat
  processed : Nat
  failed : Nat
  retrying : Nat
  avgProcessingTime : Option ℚ
deriving DecidableEq, Repr

/-- Rows of this queue (the `count` with only the `queueName` filter). -/
def queueRows (cfg : Config) (db : DB) : List Row :=
  db.rows.filter (fun r => decide (r.queueName = cfg.name))

/-- The per-status `count` of `getStats`. -/
def countStatus (cfg : Config) (db : DB) (st : RequestStatus) : Nat :=
  (db.rows.filter (fun r => decide (r.queueName = cfg.name ∧ r.status = st))).length

/-- The `where` filter of the `completedRequests` query of `getStats`:
this queue, PROCESSED, both processing timestamps non-null. -/
def completedSampleRows (cfg : Config) (db : DB) : List Row :=
  db.rows.filter (fun r =>
    decide (r.queueName = cfg.name ∧ r.status = .PROCESSED ∧
      r.processingStartedAt ≠ none ∧ r.processingCompletedAt ≠ none))

/-- Insertion step of the `orderBy processingCompletedAt desc` sort. -/
def insertByCompletedDesc (r : Row) : List Row → List Row
  | [] => [r]
  | x :: xs =>
      if x.processingCompletedAt.getD 0 < r.processingCompletedAt.getD 0 then r :: x :: xs
      else x :: insertByCompletedDesc r xs

/-- Stable sort realising `orderBy processingCompletedAt: desc`. -/
def sortByCompletedDesc : List Row → List Row
  | [] => []
  | x :: xs => insertByCompletedDesc x (sortByCompletedDesc xs)

/-- The `completedRequests` sample of `getStats`: the (at most) 100 most
recently completed PROCESSED rows (`take: 100`). -/
def completedRequests (cfg : Config) (db : DB) : List Row :=
  (sortByCompletedDesc (completedSampleRows cfg db)).take 100

/-- One sample's latency, `processingCompletedAt − processingStartedAt`
in milliseconds (the non-null asserted `getTime()` difference). -/
def rowDuration (r : Row) : ℤ :=
  (r.processingCompletedAt.getD 0 : ℤ) - (r.processingStartedAt.getD 0 : ℤ)

/-- Method `getStats()`: the six counts plus `avgProcessingTime`, which
stays `undefined` unless at least one sample exists. -/
def getStats (cfg : Config) (db : DB) : QueueStats :=
  let samples := completedRequests cfg db
  { total := (queueRows cfg db).length
    pending := countStatus cfg db .PENDING
    processing := countStatus cfg db .PROCESSING
    processed := countStatus cfg db .PROCESSED
    failed := countStatus cfg db .FAILED
    retrying := countStatus cfg db .RETRYING
    avgProcessingTime :=
      if samples.length = 0 then none
      else some (((samples.map rowDuration).sum : ℚ) / (samples.length : ℚ)) }

/-- One mutating call against the storage, for reachability statements. -/
inductive Op
  | enqueue (req : Request) (prio : Option ℚ) (now : Nat)
  | enqueueBatch (reqs : List Request) (prio : Option ℚ) (now : Nat)
  | next (now : Nat)
  | markProcessed (id now : Nat)
  | markFailed (id : Nat) (err : String) (retryable : Option Bool) (now : Nat)
  | retry (id : Nat) (prio : Option ℚ)
  | reclaimSweep (now : Nat)
  | removeIds (ids : List Nat)
  | clear
deriving DecidableEq

/-- A call that throws leaves the table as it was (every throwing path
of the storage throws before writing). -/
def exceptToState (db : DB) : Except String DB → DB
  | .ok d => d
  | .error _ => db

/-- Effect of one call on the table. -/
def applyOp (cfg : Config) (db : DB) : Op → DB
  | .enqueue req prio now => enqueue cfg req prio now db
  | .enqueueBatch reqs prio now => enqueueBatch cfg reqs prio now db
  | .next now => (next cfg now db).2
  | .markProcessed id now => exceptToState db (markProcessed id now db)
  | .markFailed id err retryable now => exceptToState db (markFailed cfg id err retryable now db)
  | .retry id prio => exceptToState db (retry id prio db)
  | .reclaimSweep now => reclaimSweep cfg now db
  | .removeIds ids => removeIds cfg ids db
  | .clear => clearQueue cfg db

def applyOps (cfg : Config) (ops : List Op) (db : DB) : DB :=
  ops.foldl (applyOp cfg) db

/-- States reachable from the empty table by some sequence of storage
calls. -/
def Reachable (cfg : Config) (db : DB) : Prop :=
  ∃ ops : List Op, db = applyOps cfg ops emptyDB

/-- Any interleaving of the atomic `next()` transactions is a sequence
of `next` steps; collect the items the calls return. -/
def nextRuns (cfg : Config) : List Nat → DB → List QueuedRequest × DB
  | [], db => ([], db)
  | t :: ts, db =>
      let step := next cfg t db
      let rest := nextRuns cfg ts step.2
      (step.1.toList ++ rest.1, rest.2)

/-- Per-row portion of the state invariant: a PROCESSING row carries its
lease stamp, a PENDING row carries none, and `maxRetries` is the schema
default the code never overrides. -/
def RowInv (r : Row) : Prop :=
  (r.status = .PROCESSING → r.processingStartedAt ≠ none) ∧
  (r.status = .PENDING → r.processingStartedAt = none) ∧
  r.maxRetries = 3

/-- State invariant: every row satisfies `RowInv`, ids are below the
fresh counter, and ids are pairwise distinct. -/
def Inv (db : DB) : Prop :=
  (∀ r ∈ db.rows, RowInv r ∧ r.id < db.nextId) ∧ (db.rows.map Row.id).Nodup

/-- No row with this id is PENDING (used to show an id, once leased,
can never be handed out again). -/
def NoPending (db : DB) (i : Nat) : Prop :=
  ∀ r ∈ db.rows, r.id = i → r.status ≠ .PENDING

/-- Concrete scenario queue configuration. -/
def scenarioCfg : Config := mkConfig "movies"

def scenarioReq (u : String) : Request := { url := u }

/-- Three items enqueued with priorities 0.2, 0.9, 0.5 at successive
times, no uniqueKey collisions (no uniqueKey at all). -/
def scenarioDB : DB :=
  enqueue scenarioCfg (scenarioReq "c") (some (mkRat 1 2)) 2
    (enqueue scenarioCfg (scenarioReq "b") (some (mkRat 9 10)) 1
      (enqueue scenarioCfg (scenarioReq "a") (some (mkRat 1 5)) 0 emptyDB))

/-- The row the first scenario `next()` must pick: priority 0.9. -/
def scenarioRowB : Row := enqueueRow scenarioCfg (scenarioReq "b") (some (mkRat 9 10)) 1 1

/-- Number of stored rows carrying this `(queueName, uniqueKey)` pair. -/
def countKey (db : DB) (qn k : String) : Nat :=
  (db.rows.filter (fun r => decide (r.queueName = qn ∧ r.uniqueKey = some k))).length

lemma better_irrefl (a : Row) : ¬ better a a := by
  unfold better
  push_neg
  exact ⟨le_refl _, fun _ => le_refl _⟩

lemma better_trans {x y z : Row} (h1 : better x y) (h2 : better y z) : better x z := by
  unfold better at *
  rcases h1 with h1 | ⟨h1e, h1c⟩ <;> rcases h2 with h2 | ⟨h2e, h2c⟩
  · exact Or.inl (by linarith)
  · exact Or.inl (by linarith)
  · exact Or.inl (by linarith)
  · exact Or.inr ⟨by linarith, by omega⟩

lemma not_better_trans {x y z : Row} (h1 : ¬ better x y) (h2 : ¬ better y z) :
    ¬ better x z := by
  unfold better at *
  push_neg at *
  obtain ⟨h1p, h1c⟩ := h1
  obtain ⟨h2p, h2c⟩ := h2
  refine ⟨le_trans h1p h2p, fun hxz => ?_⟩
  have hxy : x.priority = y.priority := le_antisymm h1p (hxz ▸ h2p)
  have hyz : y.priority = z.priority := hxy ▸ hxz
  have := h1c hxy
  have := h2c hyz
  omega

lemma pickBest_spec : ∀ (rs : List Row) (best : Row),
    (pickBest best rs = best ∨ pickBest best rs ∈ rs) ∧
      ∀ x, (x = best ∨ x ∈ rs) → ¬ better x (pickBest best rs) := by
  intro rs
  induction rs with
  | nil =>
      intro best
      refine ⟨Or.inl rfl, ?_⟩
      rintro x (rfl | hx)
      · simpa [pickBest] using better_irrefl x
      · cases hx
  | cons r rs ih =>
      intro best
      by_cases hb : better r best
      · have h := ih r
        simp only [pickBest, if_pos hb]
        refine ⟨?_, ?_⟩
        · rcases h.1 with h1 | h1
          · exact Or.inr (by rw [h1]; exact List.mem_cons_self r rs)
          · exact Or.inr (List.mem_cons_of_mem _ h1)
        · rintro x (rfl | hx)
          · exact fun hcon => (h.2 r (Or.inl rfl)) (better_trans hb hcon)
          · rcases List.mem_cons.1 hx with rfl | hx2
            · exact h.2 x (Or.inl rfl)
            · exact h.2 x (Or.inr hx2)
      · have h := ih best
        simp only [pickBest, if_neg hb]
        refine ⟨?_, ?_⟩
        · rcases h.1 with h1 | h1
          · exact Or.inl h1
          · exact Or.inr (List.mem_cons_of_mem _ h1)
        · rintro x (rfl | hx)
          · exact h.2 x (Or.inl rfl)
          · rcases List.mem_cons.1 hx with rfl | hx2
            · exact not_better_trans hb (h.2 best (Or.inl rfl))
            · exact h.2 x (Or.inr hx2)

lemma mem_pendingRows {cfg : Config} {db : DB} {r : Row} :
    r ∈ pendingRows cfg db ↔
      r ∈ db.rows ∧ r.queueName = cfg.name ∧ r.status = .PENDING := by
  simp [pendingRows, List.mem_filter, and_assoc]

lemma findFirstPending_some {cfg : Config} {db : DB} {r : Row}
    (h : findFirstPending cfg db = some r) :
    r ∈ pendingRows cfg db ∧ ∀ x ∈ pendingRows cfg db, ¬ better x r := by
  unfold findFirstPending at h
  cases hp : pendingRows cfg db with
  | nil => rw [hp] at h; cases h
  | cons a as =>
      rw [hp] at h
      have hr : pickBest a as = r := by injection h
      have hs := pickBest_spec as a
      rw [hr] at hs
      refine ⟨?_, ?_⟩
      · rcases hs.1 with h1 | h1
        · rw [h1]; exact List.mem_cons_self a as
        · exact List.mem_cons_of_mem _ h1
      · intro x hx
        rcases List.mem_cons.1 hx with rfl | hx2
        · exact hs.2 x (Or.inl rfl)
        · exact hs.2 x (Or.inr hx2)

lemma findFirstPending_none {cfg : Config} {db : DB} :
    findFirstPending cfg db = none ↔ pendingRows cfg db = [] := by
  unfold findFirstPending
  cases pendingRows cfg db <;> simp

lemma next_of_none {cfg : Config} {db : DB} (now : Nat)
    (h : pendingRows cfg db = []) : next cfg now db = (none, db) := by
  unfold next
  rw [findFirstPending_none.2 h]

lemma next_of_some {cfg : Config} {db : DB} {r : Row} (now : Nat)
    (h : findFirstPending cfg db = some r) :
    next cfg now db = (some (mapToQueuedRequest r),
      updateRow db r.id (fun x =>
        { x with status := .PROCESSING, processingStartedAt := some now })) := by
  unfold next
  rw [h]

lemma mem_updateRow {db : DB} {i : Nat} {f : Row → Row} {y : Row} :
    y ∈ (updateRow db i f).rows ↔
      ∃ x ∈ db.rows, (if x.id = i then f x else x) = y := by
  simp [updateRow]

lemma mapToQueuedRequest_id (r : Row) : (mapToQueuedRequest r).id = r.id := rfl

lemma noPending_after_next {cfg : Config} {now : Nat} {db : DB} {q : QueuedRequest}
    (h : (next cfg now db).1 = some q) : NoPending (next cfg now db).2 q.id := by
  cases hf : findFirstPending cfg db with
  | none =>
      rw [next_of_none now (findFirstPending_none.1 hf)] at h
      cases h
  | some r =>
      rw [next_of_some now hf] at h ⊢
      have hq : q = mapToQueuedRequest r := by
        simpa using h.symm
      intro y hy hyi
      rcases mem_updateRow.1 hy with ⟨x, hx, hxy⟩
      by_cases hxi : x.id = r.id
      · rw [if_pos hxi] at hxy
        rw [← hxy]
        simp
      · rw [if_neg hxi] at hxy
        rw [← hxy] at hyi
        rw [hq, mapToQueuedRequest_id] at hyi
        exact absurd hyi hxi

lemma noPending_next {cfg : Config} {db : DB} {i : Nat} (now : Nat) (h : NoPending db i) :
    NoPending (next cfg now db).2 i ∧
      ∀ q, (next cfg now db).1 = some q → q.id ≠ i := by
  cases hf : findFirstPending cfg db with
  | none =>
      rw [next_of_none now (findFirstPending_none.1 hf)]
      exact ⟨h, by intro q hq; cases hq⟩
  | some r =>
      rw [next_of_some now hf]
      have hr := findFirstPending_some hf
      have hmem := mem_pendingRows.1 hr.1
      have hid : r.id ≠ i := fun hri => h r hmem.1 hri hmem.2.2
      constructor
      · intro y hy hyi
        rcases mem_updateRow.1 hy with ⟨x, hx, hxy⟩
        by_cases hxi : x.id = r.id
        · rw [if_pos hxi] at hxy
          rw [← hxy]
          simp
        · rw [if_neg hxi] at hxy
          rw [← hxy] at hyi ⊢
          exact h x hx hyi
      · intro q hq
        have hq' : q = mapToQueuedRequest r := by simpa using hq.symm
        rw [hq', mapToQueuedRequest_id]
        exact hid

lemma noPending_nextRuns (cfg : Config) :
    ∀ (ts : List Nat) (db : DB) (i : Nat), NoPending db i →
      i ∉ (nextRuns cfg ts db).1.map QueuedRequest.id := by
  intro ts
  induction ts with
  | nil => intro db i _; simp [nextRuns]
  | cons t ts ih =>
      intro db i h
      simp only [nextRuns, List.map_append, List.mem_append]
      push_neg
      obtain ⟨h2, h1⟩ := @noPending_next cfg db i t h
      refine ⟨?_, ih _ i h2⟩
      cases hn : (next cfg t db).1 with
      | none => simp
      | some q =>
          simp only [Option.toList]
          intro hc
          rcases List.mem_map.1 hc with ⟨q', hq', hq'i⟩
          rcases List.mem_singleton.1 hq' with rfl
          exact h1 q' hn hq'i

/-- C1: for any set of concurrent `next()` calls — each an atomic
`$transaction`, hence any interleaving is some sequence of `next`
steps — the ids of the returned items are pairwise distinct: no two
calls ever receive the same row, against any starting table. -/
theorem nextRuns_ids_nodup (cfg : Config) (ts : List Nat) (db : DB) :
    ((nextRuns cfg ts db).1.map QueuedRequest.id).Nodup := by
  induction ts generalizing db with
  | nil => simp [nextRuns]
  | cons t ts ih =>
      simp only [nextRuns, List.map_append]
      cases hn : (next cfg t db).1 with
      | none => simpa using ih (next cfg t db).2
      | some q =>
          simp only [Option.toList, List.map_cons, List.map_nil, List.nil_append,
            List.singleton_append]
          refine List.nodup_cons.2 ⟨?_, ih _⟩
          exact noPending_nextRuns cfg ts _ q.id (noPending_after_next hn)

/-- C2: `next()` selects, among this queue's PENDING rows only, one of
maximal priority, ties broken by least `createdAt`; it transitions that
row to PROCESSING stamping `processingStartedAt`; it returns `none`
(not an error — the return type is an `Option`) exactly when no PENDING
row exists, leaving the table unchanged; and on the scenario of three
items with priorities 0.2, 0.9, 0.5, successive calls return them in
order 0.9, 0.5, 0.2. -/
theorem next_selects_best_pending :
    (∀ (cfg : Config) (now : Nat) (db : DB) (r : Row),
        findFirstPending cfg db = some r →
          r ∈ db.rows ∧ r.queueName = cfg.name ∧ r.status = .PENDING ∧
          (∀ x ∈ db.rows, x.queueName = cfg.name → x.status = .PENDING →
              x.priority ≤ r.priority ∧
                (x.priority = r.priority → r.createdAt ≤ x.createdAt)) ∧
          (next cfg now db).1 = some (mapToQueuedRequest r) ∧
          (∀ y ∈ (next cfg now db).2.rows, y.id = r.id →
              y.status = .PROCESSING ∧ y.processingStartedAt = some now)) ∧
    (∀ (cfg : Config) (now : Nat) (db : DB),
        (next cfg now db).1 = none ↔ pendingRows cfg db = []) ∧
    (∀ (cfg : Config) (now : Nat) (db : DB),
        pendingRows cfg db = [] → next cfg now db = (none, db)) ∧
    (nextRuns scenarioCfg [10, 11, 12] scenarioDB).1.map (fun q => q.priority)
      = [mkRat 9 10, mkRat 1 2, mkRat 1 5] := by
  refine ⟨?_, ?_, ?_, by decide⟩
  · intro cfg now db r hf
    obtain ⟨hmem, hbest⟩ := findFirstPending_some hf
    obtain ⟨hrows, hqn, hst⟩ := mem_pendingRows.1 hmem
    refine ⟨hrows, hqn, hst, ?_, ?_, ?_⟩
    · intro x hx hxq hxs
      have hnb := hbest x (mem_pendingRows.2 ⟨hx, hxq, hxs⟩)
      unfold better at hnb
      push_neg at hnb
      exact hnb
    · rw [next_of_some now hf]
    · intro y hy hyi
      rw [next_of_some now hf] at hy
      rcases mem_updateRow.1 hy with ⟨x, hx, hxy⟩
      by_cases hxi : x.id = r.id
      · rw [if_pos hxi] at hxy
        rw [← hxy]
        exact ⟨rfl, rfl⟩
      · rw [if_neg hxi] at hxy
        rw [← hxy] at hyi
        exact absurd hyi hxi
  · intro cfg now db
    constructor
    · intro h
      cases hf : findFirstPending cfg db with
      | none => exact findFirstPending_none.1 hf
      | some r => rw [next_of_some now hf] at h; cases h
    · intro h
      rw [next_of_none now h]
  · intro cfg now db h
    exact next_of_none now h

/-- Witness for C2: on the concrete scenario the first call returns the
priority-0.9 row, and `next` on the empty table returns `none` with the
table unchanged. -/
theorem next_selects_best_pending_witness :
    (next scenarioCfg 10 scenarioDB).1 = some (mapToQueuedRequest scenarioRowB) ∧
    next scenarioCfg 99 emptyDB = (none, emptyDB) :=
  ⟨(next_selects_best_pending.1 scenarioCfg 10 scenarioDB scenarioRowB
      (by decide)).2.2.2.2.1,
   next_selects_best_pending.2.2.1 scenarioCfg 99 emptyDB (by decide)⟩

/-- C10: the item a successful `next()` returns is the snapshot of the
row fetched before the lease update: its status reads `pending`, its
`processedAt` is the row's old `processingCompletedAt`, and the
`QueuedRequest` shape is insensitive to `processingStartedAt` (the field
is simply not mapped), while the stored row ends up PROCESSING with the
fresh `processingStartedAt` stamp. -/
theorem next_returns_presnapshot :
    (∀ (cfg : Config) (now : Nat) (db : DB) (q : QueuedRequest),
        (next cfg now db).1 = some q →
          ∃ r ∈ db.rows, r.status = .PENDING ∧ q = mapToQueuedRequest r ∧
            q.status = .pending ∧ q.processedAt = r.processingCompletedAt ∧
            ∀ y ∈ (next cfg now db).2.rows, y.id = q.id →
              y.status = .PROCESSING ∧ y.processingStartedAt = some now) ∧
    (∀ (r : Row) (t : Option Nat),
        mapToQueuedRequest { r with processingStartedAt := t } = mapToQueuedRequest r) := by
  constructor
  · intro cfg now db q hq
    cases hf : findFirstPending cfg db with
    | none =>
        rw [next_of_none now (findFirstPending_none.1 hf)] at hq
        cases hq
    | some r =>
        obtain ⟨hmem, _⟩ := findFirstPending_some hf
        obtain ⟨hrows, _, hst⟩ := mem_pendingRows.1 hmem
        rw [next_of_some now hf] at hq
        have hqr : q = mapToQueuedRequest r := by simpa using hq.symm
        refine ⟨r, hrows, hst, hqr, ?_, ?_, ?_⟩
        · rw [hqr]
          simp [mapToQueuedRequest, hst, mapStatusFromDb]
        · rw [hqr]
          rfl
        · intro y hy hyi
          rw [next_of_some now hf] at hy
          rcases mem_updateRow.1 hy with ⟨x, hx, hxy⟩
          rw [hqr, mapToQueuedRequest_id] at hyi
          by_cases hxi : x.id = r.id
          · rw [if_pos hxi] at hxy
            rw [← hxy]
            exact ⟨rfl, rfl⟩
          · rw [if_neg hxi] at hxy
            rw [← hxy] at hyi
            exact absurd hyi hxi
  · intro r t
    rfl

/-- Witness for C10 on the concrete scenario state. -/
theorem next_returns_presnapshot_witness :
    (∃ r ∈ scenarioDB.rows, r.status = .PENDING ∧
        mapToQueuedRequest scenarioRowB = mapToQueuedRequest r ∧
        (mapToQueuedRequest scenarioRowB).status = .pending ∧
        (mapToQueuedRequest scenarioRowB).processedAt = r.processingCompletedAt ∧
        ∀ y ∈ (next scenarioCfg 10 scenarioDB).2.rows,
          y.id = (mapToQueuedRequest scenarioRowB).id →
            y.status = .PROCESSING ∧ y.processingStartedAt = some 10) ∧
    mapToQueuedRequest { scenarioRowB with processingStartedAt := some 77 }
      = mapToQueuedRequest scenarioRowB :=
  ⟨next_returns_presnapshot.1 scenarioCfg 10 scenarioDB
      (mapToQueuedRequest scenarioRowB) (by decide),
   next_returns_presnapshot.2 scenarioRowB (some 77)⟩

lemma conflictsB_true_iff {db : DB} {qn k : String} :
    conflictsB db qn (some k) = true ↔
      ∃ r ∈ db.rows, r.queueName = qn ∧ r.uniqueKey = some k := by
  simp [conflictsB, List.any_eq_true]

lemma tryInsert_of_not_conflict {db : DB} {mk : Nat → Row}
    (h : conflictsB db (mk db.nextId).queueName (mk db.nextId).uniqueKey = false) :
    tryInsert db mk = ⟨db.rows ++ [mk db.nextId], db.nextId + 1⟩ := by
  simp [tryInsert, h]

lemma tryInsert_of_conflict {db : DB} {mk : Nat → Row}
    (h : conflictsB db (mk db.nextId).queueName (mk db.nextId).uniqueKey = true) :
    tryInsert db mk = db := by
  simp [tryInsert, h]

lemma enqueueRow_uniqueKey (cfg : Config) (req : Request) (prio : Option ℚ)
    (now id : Nat) : (enqueueRow cfg req prio now id).uniqueKey = req.uniqueKey := rfl

/-- C3: a second `enqueue` with the same `(queueName, uniqueKey)` pair —
whatever its url, payload or priority — leaves the table exactly as it
was (the P2002 unique-violation is swallowed; `enqueue` is total, no
error reaches the caller) and exactly one row with that key is stored. -/
theorem enqueue_duplicate_silent_noop :
    ∀ (cfg : Config) (req req2 : Request) (k : String) (p1 p2 : Option ℚ)
      (t1 t2 : Nat) (db0 : DB),
      req.uniqueKey = some k → req2.uniqueKey = some k →
      countKey db0 cfg.name k = 0 →
      enqueue cfg req2 p2 t2 (enqueue cfg req p1 t1 db0) = enqueue cfg req p1 t1 db0 ∧
      countKey (enqueue cfg req p1 t1 db0) cfg.name k = 1 ∧
      countKey (enqueue cfg req2 p2 t2 (enqueue cfg req p1 t1 db0)) cfg.name k = 1 := by
  intro cfg req req2 k p1 p2 t1 t2 db0 hk hk2 h0
  have hnone : ∀ r ∈ db0.rows, ¬(r.queueName = cfg.name ∧ r.uniqueKey = some k) := by
    intro r hr hcon
    have : r ∈ db0.rows.filter
        (fun r => decide (r.queueName = cfg.name ∧ r.uniqueKey = some k)) :=
      List.mem_filter.2 ⟨hr, by simpa using hcon⟩
    rw [List.length_eq_zero.1 h0] at this
    cases this
  have hc0 : conflictsB db0 cfg.name (some k) = false := by
    rw [Bool.eq_false_iff]
    intro hc
    rcases conflictsB_true_iff.1 hc with ⟨r, hr, hcon⟩
    exact hnone r hr hcon
  have h1 : enqueue cfg req p1 t1 db0
      = ⟨db0.rows ++ [enqueueRow cfg req p1 t1 db0.nextId], db0.nextId + 1⟩ := by
    unfold enqueue
    exact tryInsert_of_not_conflict (by rw [enqueueRow_uniqueKey, hk]; exact hc0)
  have hrowk : (enqueueRow cfg req p1 t1 db0.nextId).uniqueKey = some k := by
    rw [enqueueRow_uniqueKey, hk]
  have hc1 : conflictsB (enqueue cfg req p1 t1 db0) cfg.name (some k) = true := by
    refine conflictsB_true_iff.2 ⟨enqueueRow cfg req p1 t1 db0.nextId, ?_, rfl, hrowk⟩
    rw [h1]
    simp
  have h2 : enqueue cfg req2 p2 t2 (enqueue cfg req p1 t1 db0)
      = enqueue cfg req p1 t1 db0 := by
    unfold enqueue
    exact tryInsert_of_conflict (by rw [enqueueRow_uniqueKey, hk2]; exact hc1)
  have hcnt : countKey (enqueue cfg req p1 t1 db0) cfg.name k = 1 := by
    rw [h1]
    unfold countKey at h0 ⊢
    simp only [List.filter_append, List.length_append, h0]
    simp [enqueueRow, hk]
  exact ⟨h2, hcnt, by rw [h2]; exact hcnt⟩

/-- Witness for C3: two enqueues with key "x" but different urls and
payloads store exactly one row and the second call is a no-op. -/
theorem enqueue_duplicate_silent_noop_witness :
    enqueue (mkConfig "q") { url := "v", payload := some "p", uniqueKey := some "x" }
        (some (mkRat 3 4)) 5
        (enqueue (mkConfig "q") { url := "u", uniqueKey := some "x" } none 0 emptyDB)
      = enqueue (mkConfig "q") { url := "u", uniqueKey := some "x" } none 0 emptyDB ∧
    countKey (enqueue (mkConfig "q") { url := "u", uniqueKey := some "x" } none 0 emptyDB)
        "q" "x" = 1 ∧
    countKey (enqueue (mkConfig "q")
        { url := "v", payload := some "p", uniqueKey := some "x" } (some (mkRat 3 4)) 5
        (enqueue (mkConfig "q") { url := "u", uniqueKey := some "x" } none 0 emptyDB))
        "q" "x" = 1 :=
  enqueue_duplicate_silent_noop (mkConfig "q")
    { url := "u", uniqueKey := some "x" }
    { url := "v", payload := some "p", uniqueKey := some "x" }
    "x" none (some (mkRat 3 4)) 0 5 emptyDB rfl rfl (by decide)

/-- C8 counterexample: for a request without a `uniqueKey`,
`enqueueBatch` stores `uniqueKey = url` (the `request.uniqueKey ||
request.url` fallback) while `enqueue` stores `uniqueKey = null`, so the
stored rows differ. -/
theorem enqueueBatch_uniqueKey_counterexample :
    (enqueueBatch (mkConfig "q") [scenarioReq "u"] none 0 emptyDB).rows.map Row.uniqueKey
      = [some "u"] ∧
    (enqueue (mkConfig "q") (scenarioReq "u") none 0 emptyDB).rows.map Row.uniqueKey
      = [none] ∧
    enqueueBatch (mkConfig "q") [scenarioReq "u"] none 0 emptyDB
      ≠ enqueue (mkConfig "q") (scenarioReq "u") none 0 emptyDB := by
  exact ⟨by decide, by decide, by decide⟩

/-- C8 (amended): `enqueueBatch` has per item the semantics of a
sequence of `enqueue` calls — same stored fields, same silent
duplicate-skip — provided every request carries a non-empty
`uniqueKey`; for a request without one (or with the empty string),
`enqueueBatch` substitutes the request's url as the stored `uniqueKey`
where `enqueue` stores null. -/
theorem enqueueBatch_refines_enqueue_amended :
    (∀ (cfg : Config) (req : Request) (prio : Option ℚ) (now id : Nat) (k : String),
        req.uniqueKey = some k → k ≠ "" →
        batchRow cfg req prio now id = enqueueRow cfg req prio now id) ∧
    (∀ (req : Request), req.uniqueKey = none →
        (batchRow (mkConfig "q") req none 0 0).uniqueKey = some req.url) ∧
    (∀ (cfg : Config) (reqs : List Request) (prio : Option ℚ) (now : Nat) (db : DB),
        (∀ req ∈ reqs, ∃ k, req.uniqueKey = some k ∧ k ≠ "") →
        enqueueBatch cfg reqs prio now db =
          reqs.foldl (fun d req => enqueue cfg req prio now d) db) := by
  have hrow : ∀ (cfg : Config) (req : Request) (prio : Option ℚ) (now id : Nat)
      (k : String), req.uniqueKey = some k → k ≠ "" →
      batchRow cfg req prio now id = enqueueRow cfg req prio now id := by
    intro cfg req prio now id k hk hne
    have hj : jsOr (some k) req.url = k := by simp [jsOr, hne]
    unfold batchRow
    rw [hk, hj, ← hk]
    rfl
  refine ⟨hrow, ?_, ?_⟩
  · intro req hreq
    unfold batchRow
    rw [hreq]
    simp [jsOr]
  · intro cfg reqs prio now
    induction reqs with
    | nil => intro db _; rfl
    | cons r rs ih =>
        intro db hall
        rcases hall r (List.mem_cons_self r rs) with ⟨k, hk, hne⟩
        show rs.foldl (fun d req => tryInsert d (batchRow cfg req prio now))
            (tryInsert db (batchRow cfg r prio now)) = _
        have hstep : tryInsert db (batchRow cfg r prio now)
            = enqueue cfg r prio now db := by
          unfold enqueue
          congr 1
          funext i
          exact hrow cfg r prio now i k hk hne
        rw [hstep]
        exact ih (enqueue cfg r prio now db)
          (fun req hreq => hall req (List.mem_cons_of_mem _ hreq))

/-- Witness for C8's amended theorem at concrete inputs. -/
theorem enqueueBatch_refines_enqueue_amended_witness :
    batchRow (mkConfig "q") { url := "u", uniqueKey := some "x" } none 0 0
      = enqueueRow (mkConfig "q") { url := "u", uniqueKey := some "x" } none 0 0 ∧
    (batchRow (mkConfig "q") (scenarioReq "u") none 0 0).uniqueKey = some "u" ∧
    enqueueBatch (mkConfig "q") [{ url := "u", uniqueKey := some "x" }] none 0 emptyDB
      = enqueue (mkConfig "q") { url := "u", uniqueKey := some "x" } none 0 emptyDB :=
  ⟨enqueueBatch_refines_enqueue_amended.1 (mkConfig "q")
      { url := "u", uniqueKey := some "x" } none 0 0 "x" rfl (by decide),
   enqueueBatch_refines_enqueue_amended.2.1 (scenarioReq "u") rfl,
   enqueueBatch_refines_enqueue_amended.2.2 (mkConfig "q")
      [{ url := "u", uniqueKey := some "x" }] none 0 emptyDB
      (by
        intro req h
        rcases List.mem_singleton.1 h with rfl
        exact ⟨"x", rfl, by decide⟩)⟩

lemma rowInv_enqueueRow (cfg : Config) (req : Request) (prio : Option ℚ)
    (now i : Nat) : RowInv (enqueueRow cfg req prio now i) := by
  refine ⟨fun h => ?_, fun _ => rfl, rfl⟩
  exact absurd h (by simp [enqueueRow])

lemma rowInv_batchRow (cfg : Config) (req : Request) (prio : Option ℚ)
    (now i : Nat) : RowInv (batchRow cfg req prio now i) := by
  refine ⟨fun h => ?_, fun _ => rfl, rfl⟩
  exact absurd h (by simp [batchRow, enqueueRow])

lemma inv_tryInsert {db : DB} {mk : Nat → Row} (h : Inv db)
    (hmk : RowInv (mk db.nextId) ∧ (mk db.nextId).id = db.nextId) :
    Inv (tryInsert db mk) := by
  cases hc : conflictsB db (mk db.nextId).queueName (mk db.nextId).uniqueKey with
  | true => rw [tryInsert_of_conflict hc]; exact h
  | false =>
      rw [tryInsert_of_not_conflict hc]
      obtain ⟨hall, hnd⟩ := h
      constructor
      · intro r hr
        rcases List.mem_append.1 hr with hr | hr
        · exact ⟨(hall r hr).1, Nat.lt_succ_of_lt (hall r hr).2⟩
        · rcases List.mem_singleton.1 hr with rfl
          exact ⟨hmk.1, by rw [hmk.2]; exact Nat.lt_succ_self _⟩
      · rw [List.map_append]
        refine List.nodup_append.2 ⟨hnd, List.nodup_singleton _, ?_⟩
        intro a ha hb
        simp only [List.map_cons, List.map_nil, List.mem_singleton] at hb
        rcases List.mem_map.1 ha with ⟨r, hr, hra⟩
        have h1 := (hall r hr).2
        rw [hb, hmk.2] at hra
        omega

lemma inv_mapRows {db : DB} (h : Inv db) (g : Row → Row)
    (hid : ∀ x, (g x).id = x.id)
    (hrow : ∀ x ∈ db.rows, RowInv x → RowInv (g x)) :
    Inv ⟨db.rows.map g, db.nextId⟩ := by
  obtain ⟨hall, hnd⟩ := h
  constructor
  · intro r hr
    rcases List.mem_map.1 hr with ⟨x, hx, rfl⟩
    exact ⟨hrow x hx (hall x hx).1, by rw [hid]; exact (hall x hx).2⟩
  · rw [List.map_map, show Row.id ∘ g = Row.id from funext hid]
    exact hnd

lemma inv_filterRows {db : DB} (h : Inv db) (p : Row → Bool) :
    Inv ⟨db.rows.filter p, db.nextId⟩ := by
  obtain ⟨hall, hnd⟩ := h
  refine ⟨fun r hr => hall r (List.mem_of_mem_filter hr), ?_⟩
  exact List.Nodup.sublist (List.Sublist.map _ (List.filter_sublist _)) hnd

lemma inv_updateRow {db : DB} (h : Inv db) (i : Nat) (f : Row → Row)
    (hfid : ∀ x, (f x).id = x.id)
    (hf : ∀ x ∈ db.rows, RowInv x → RowInv (f x)) :
    Inv (updateRow db i f) := by
  refine inv_mapRows h _ (fun x => ?_) (fun x hx hrx => ?_)
  · by_cases hxi : x.id = i
    · rw [if_pos hxi]; exact hfid x
    · rw [if_neg hxi]
  · by_cases hxi : x.id = i
    · rw [if_pos hxi]; exact hf x hx hrx
    · rw [if_neg hxi]; exact hrx

lemma inv_enqueueBatch (cfg : Config) (reqs : List Request) (prio : Option ℚ)
    (now : Nat) : ∀ db : DB, Inv db → Inv (enqueueBatch cfg reqs prio now db) := by
  induction reqs with
  | nil => intro db h; exact h
  | cons r rs ih =>
      intro db h
      show Inv (enqueueBatch cfg rs prio now (tryInsert db (batchRow cfg r prio now)))
      exact ih _ (inv_tryInsert h ⟨rowInv_batchRow cfg r prio now db.nextId, rfl⟩)

lemma rowInv_markFailedRow (cfg : Config) (err : String) (retryable : Option Bool)
    (now : Nat) (r : Row) {x : Row} (hx : RowInv x) :
    RowInv (markFailedRow cfg err retryable now r x) := by
  refine ⟨fun h => ?_, fun h => ?_, hx.2.2⟩ <;>
    · revert h
      unfold markFailedRow
      split <;> simp

lemma rowInv_retryRow (prio : Option ℚ) (r : Row) {x : Row} (hx : RowInv x) :
    RowInv (retryRow prio r x) := by
  exact ⟨fun h => absurd h (by simp [retryRow]), fun _ => rfl, hx.2.2⟩

lemma rowInv_reclaimRow (cfg : Config) (now : Nat) {x : Row} (hx : RowInv x) :
    RowInv (reclaimRow cfg now x) := by
  unfold reclaimRow
  split
  · exact ⟨fun h => absurd h (by simp), fun h => absurd h (by simp), hx.2.2⟩
  · exact hx

lemma markProcessed_ok {db : DB} {id : Nat} {r : Row} (now : Nat)
    (h : db.rows.find? (fun x => decide (x.id = id)) = some r) :
    markProcessed id now db = .ok (updateRow db id (fun x =>
      { x with status := .PROCESSED, processingCompletedAt := some now })) := by
  unfold markProcessed
  rw [h]

lemma markFailed_ok {cfg : Config} {db : DB} {id : Nat} {r : Row}
    (err : String) (retryable : Option Bool) (now : Nat)
    (h : db.rows.find? (fun x => decide (x.id = id)) = some r) :
    markFailed cfg id err retryable now db
      = .ok (updateRow db id (markFailedRow cfg err retryable now r)) := by
  unfold markFailed
  rw [h]

lemma retry_ok {db : DB} {id : Nat} {r : Row} (prio : Option ℚ)
    (h : db.rows.find? (fun x => decide (x.id = id)) = some r) :
    retry id prio db = .ok (updateRow db id (retryRow prio r)) := by
  unfold retry
  rw [h]

lemma inv_applyOp (cfg : Config) (op : Op) {db : DB} (h : Inv db) :
    Inv (applyOp cfg db op) := by
  cases op with
  | enqueue req prio now =>
      exact inv_tryInsert h ⟨rowInv_enqueueRow cfg req prio now db.nextId, rfl⟩
  | enqueueBatch reqs prio now => exact inv_enqueueBatch cfg reqs prio now db h
  | next now =>
      show Inv (next cfg now db).2
      cases hf : findFirstPending cfg db with
      | none => rw [next_of_none now (findFirstPending_none.1 hf)]; exact h
      | some r =>
          rw [next_of_some now hf]
          refine inv_updateRow h _ _ (fun x => rfl) (fun x _ hrx => ?_)
          exact ⟨fun _ => by simp, fun hp => absurd hp (by simp), hrx.2.2⟩
  | markProcessed id now =>
      show Inv (exceptToState db (markProcessed id now db))
      cases hfind : db.rows.find? (fun x => decide (x.id = id)) with
      | none =>
          have : markProcessed id now db = .error "P2025" := by
            unfold markProcessed; rw [hfind]
          rw [this]; exact h
      | some r =>
          rw [markProcessed_ok now hfind]
          refine inv_updateRow h _ _ (fun x => rfl) (fun x _ hrx => ?_)
          exact ⟨fun hp => absurd hp (by simp), fun hp => absurd hp (by simp), hrx.2.2⟩
  | markFailed id err retryable now =>
      show Inv (exceptToState db (markFailed cfg id err retryable now db))
      cases hfind : db.rows.find? (fun x => decide (x.id = id)) with
      | none =>
          have : markFailed cfg id err retryable now db = .error "not found" := by
            unfold markFailed; rw [hfind]
          rw [this]; exact h
      | some r =>
          rw [markFailed_ok err retryable now hfind]
          exact inv_updateRow h _ _ (fun x => rfl)
            (fun x _ hrx => rowInv_markFailedRow cfg err retryable now r hrx)
  | retry id prio =>
      show Inv (exceptToState db (retry id prio db))
      cases hfind : db.rows.find? (fun x => decide (x.id = id)) with
      | none =>
          have : retry id prio db = .error "not found" := by
            unfold retry; rw [hfind]
          rw [this]; exact h
      | some r =>
          rw [retry_ok prio hfind]
          exact inv_updateRow h _ _ (fun x => rfl)
            (fun x _ hrx => rowInv_retryRow prio r hrx)
  | reclaimSweep now =>
      show Inv ⟨db.rows.map (reclaimRow cfg now), db.nextId⟩
      refine inv_mapRows h _ (fun x => ?_) (fun x _ hrx => rowInv_reclaimRow cfg now hrx)
      unfold reclaimRow
      split <;> rfl
  | removeIds ids => exact inv_filterRows h _
  | clear => exact inv_filterRows h _

lemma inv_emptyDB : Inv emptyDB := by
  refine ⟨fun r hr => ?_, by simp [emptyDB]⟩
  cases hr

lemma inv_applyOps (cfg : Config) :
    ∀ (ops : List Op) (db : DB), Inv db → Inv (applyOps cfg ops db) := by
  intro ops
  induction ops with
  | nil => intro db h; exact h
  | cons op ops ih =>
      intro db h
      exact ih _ (inv_applyOp cfg op h)

lemma inv_reachable {cfg : Config} {db : DB} (h : Reachable cfg db) : Inv db := by
  rcases h with ⟨ops, rfl⟩
  exact inv_applyOps cfg ops emptyDB inv_emptyDB

/-- C6 counterexample: enqueue one item, lease it via `next()` at time
5, then `markProcessed` at time 9.  The resulting state is reachable,
and its row has status PROCESSED yet still carries
`processingStartedAt = 5`: `markProcessed` (like `markFailed` and the
reclaim sweep) never clears the lease stamp, so "non-null iff
PROCESSING" is false on the code. -/
theorem processingStartedAt_iff_counterexample :
    Reachable (mkConfig "q")
      (applyOps (mkConfig "q")
        [Op.enqueue (scenarioReq "u") none 0, Op.next 5, Op.markProcessed 0 9]
        emptyDB) ∧
    ∃ r ∈ (applyOps (mkConfig "q")
        [Op.enqueue (scenarioReq "u") none 0, Op.next 5, Op.markProcessed 0 9]
        emptyDB).rows,
      r.status ≠ .PROCESSING ∧ r.processingStartedAt ≠ none :=
  ⟨⟨_, rfl⟩, by decide⟩

/-- C6 (amended): in every reachable state, a PROCESSING row carries a
non-null `processingStartedAt` and a PENDING row carries none; but the
stamp is not cleared by `markProcessed`/`markFailed`/the reclaim sweep,
so PROCESSED, FAILED and RETRYING rows may keep it (only `retry`
clears it) — the spec's "if and only if" holds in the
PROCESSING-implies-stamped direction only. -/
theorem processingStartedAt_invariant_amended :
    ∀ (cfg : Config) (db : DB), Reachable cfg db →
      ∀ r ∈ db.rows,
        (r.status = .PROCESSING → ∃ t, r.processingStartedAt = some t) ∧
        (r.status = .PENDING → r.processingStartedAt = none) := by
  intro cfg db h r hr
  obtain ⟨hall, _⟩ := inv_reachable h
  obtain ⟨h1, h2, _⟩ := (hall r hr).1
  refine ⟨fun hs => ?_, h2⟩
  cases ht : r.processingStartedAt with
  | none => exact absurd ht (h1 hs)
  | some t => exact ⟨t, rfl⟩

/-- Witness for C6's amended theorem: on a concrete reachable state,
the leased (PROCESSING) row carries some `processingStartedAt`. -/
theorem processingStartedAt_invariant_amended_witness :
    ∃ t, ({ enqueueRow (mkConfig "q") (scenarioReq "u") none 0 0 with
        status := RequestStatus.PROCESSING,
        processingStartedAt := some 5 } : Row).processingStartedAt = some t :=
  (processingStartedAt_invariant_amended (mkConfig "q")
      (applyOps (mkConfig "q")
        [Op.enqueue (scenarioReq "u") none 0, Op.enqueue (scenarioReq "v") none 1,
          Op.next 5] emptyDB)
      ⟨_, rfl⟩
      { enqueueRow (mkConfig "q") (scenarioReq "u") none 0 0 with
          status := RequestStatus.PROCESSING, processingStartedAt := some 5 }
      (by decide)).1 rfl

lemma find?_id_spec {db : DB} {id : Nat} {r : Row}
    (h : db.rows.find? (fun x => decide (x.id = id)) = some r) :
    r ∈ db.rows ∧ r.id = id := by
  refine ⟨List.mem_of_find?_eq_some h, ?_⟩
  have := List.find?_some h
  simpa using this

lemma eq_of_id_nodup {db : DB} (hN : (db.rows.map Row.id).Nodup)
    {a b : Row} (ha : a ∈ db.rows) (hb : b ∈ db.rows) (hab : a.id = b.id) : a = b :=
  List.inj_on_of_nodup_map hN ha hb hab

lemma updateRow_unique {db : DB} (hN : (db.rows.map Row.id).Nodup)
    {r : Row} (hr : r ∈ db.rows) {i : Nat} (hri : r.id = i) (f : Row → Row)
    (hfid : ∀ x, (f x).id = x.id) :
    (∃ y ∈ (updateRow db i f).rows, y.id = i) ∧
    (∀ y ∈ (updateRow db i f).rows, y.id = i → y = f r) ∧
    (∀ y ∈ (updateRow db i f).rows, y.id ≠ i → y ∈ db.rows) := by
  refine ⟨⟨f r, ?_, ?_⟩, ?_, ?_⟩
  · have : (if r.id = i then f r else r) ∈ (updateRow db i f).rows :=
      List.mem_map_of_mem _ hr
    rwa [if_pos hri] at this
  · rw [hfid, hri]
  · intro y hy hyi
    rcases mem_updateRow.1 hy with ⟨x, hx, hxy⟩
    by_cases hxi : x.id = i
    · rw [if_pos hxi] at hxy
      have : x = r := eq_of_id_nodup hN hx hr (by rw [hxi, hri])
      rw [← hxy, this]
    · rw [if_neg hxi] at hxy
      rw [← hxy] at hyi
      exact absurd hyi hxi
  · intro y hy hyi
    rcases mem_updateRow.1 hy with ⟨x, hx, hxy⟩
    by_cases hxi : x.id = i
    · rw [if_pos hxi] at hxy
      rw [← hxy, hfid] at hyi
      exact absurd hxi hyi
    · rw [if_neg hxi] at hxy
      rw [← hxy]
      exact hx

/-- C4: `markFailed(id, error, retryable)` on an existing row sets
RETRYING exactly when `retryable` is not `false` (true or omitted) and
`retryCount < maxRetries` (the code compares against the constructor's
`retryLimit`, which the constructor pins to 3 — the same value
`maxRetries` always holds), FAILED otherwise; it retains `retryCount`,
always records `lastError` and `processingCompletedAt`, leaves every
other row alone, and errors when the id is unknown.  At the boundary,
`retryCount = maxRetries − 1` yields RETRYING and `retryCount =
maxRetries` yields FAILED. -/
theorem markFailed_retry_vs_failed :
    (∀ (qn err : String) (id : Nat) (retryable : Option Bool) (now : Nat) (db : DB),
        db.rows.find? (fun x => decide (x.id = id)) = none →
        markFailed (mkConfig qn) id err retryable now db = .error "not found") ∧
    (∀ (qn err : String) (id : Nat) (retryable : Option Bool) (now : Nat)
        (db : DB) (r : Row),
        db.rows.find? (fun x => decide (x.id = id)) = some r →
        (db.rows.map Row.id).Nodup → r.maxRetries = 3 →
        ∃ db1, markFailed (mkConfig qn) id err retryable now db = .ok db1 ∧
          (∃ y ∈ db1.rows, y.id = id) ∧
          (∀ y ∈ db1.rows, y.id = id →
            y = { r with
                  status :=
                    if retryable ≠ some false ∧ r.retryCount < r.maxRetries
                      then RequestStatus.RETRYING else RequestStatus.FAILED
                  lastError := some err
                  processingCompletedAt := some now }) ∧
          (∀ y ∈ db1.rows, y.id ≠ id → y ∈ db.rows)) ∧
    (∀ (qn err : String) (id : Nat) (retryable : Option Bool) (now : Nat)
        (db db1 : DB) (r : Row),
        db.rows.find? (fun x => decide (x.id = id)) = some r →
        (db.rows.map Row.id).Nodup → r.maxRetries = 3 →
        markFailed (mkConfig qn) id err retryable now db = .ok db1 →
        retryable ≠ some false → r.retryCount = r.maxRetries - 1 →
        ∀ y ∈ db1.rows, y.id = id → y.status = .RETRYING) ∧
    (∀ (qn err : String) (id : Nat) (retryable : Option Bool) (now : Nat)
        (db db1 : DB) (r : Row),
        db.rows.find? (fun x => decide (x.id = id)) = some r →
        (db.rows.map Row.id).Nodup → r.maxRetries = 3 →
        markFailed (mkConfig qn) id err retryable now db = .ok db1 →
        r.retryCount = r.maxRetries →
        ∀ y ∈ db1.rows, y.id = id → y.status = .FAILED) := by
  have hmain : ∀ (qn err : String) (id : Nat) (retryable : Option Bool) (now : Nat)
      (db : DB) (r : Row),
      db.rows.find? (fun x => decide (x.id = id)) = some r →
      (db.rows.map Row.id).Nodup → r.maxRetries = 3 →
      ∃ db1, markFailed (mkConfig qn) id err retryable now db = .ok db1 ∧
        (∃ y ∈ db1.rows, y.id = id) ∧
        (∀ y ∈ db1.rows, y.id = id →
          y = { r with
                status :=
                  if retryable ≠ some false ∧ r.retryCount < r.maxRetries
                    then RequestStatus.RETRYING else RequestStatus.FAILED
                lastError := some err
                processingCompletedAt := some now }) ∧
        (∀ y ∈ db1.rows, y.id ≠ id → y ∈ db.rows) := by
    intro qn err id retryable now db r hfind hN hmax
    obtain ⟨hr, hri⟩ := find?_id_spec hfind
    refine ⟨updateRow db id (markFailedRow (mkConfig qn) err retryable now r),
      markFailed_ok err retryable now hfind, ?_⟩
    obtain ⟨hex, huniq, hother⟩ :=
      updateRow_unique hN hr hri (markFailedRow (mkConfig qn) err retryable now r)
        (fun x => rfl)
    refine ⟨hex, ?_, hother⟩
    intro y hy hyi
    rw [huniq y hy hyi]
    unfold markFailedRow
    rw [hmax]
    rfl
  refine ⟨?_, hmain, ?_, ?_⟩
  · intro qn err id retryable now db hfind
    unfold markFailed
    rw [hfind]
  · intro qn err id retryable now db db1 r hfind hN hmax hok hret hcnt y hy hyi
    obtain ⟨db1', hok', _, huniq, _⟩ := hmain qn err id retryable now db r hfind hN hmax
    rw [hok] at hok'
    have hdb : db1 = db1' := by
      injection hok'
    subst hdb
    rw [huniq y hy hyi]
    have hc : retryable ≠ some false ∧ r.retryCount < r.maxRetries :=
      ⟨hret, by omega⟩
    simp [if_pos hc]
  · intro qn err id retryable now db db1 r hfind hN hmax hok hcnt y hy hyi
    obtain ⟨db1', hok', _, huniq, _⟩ := hmain qn err id retryable now db r hfind hN hmax
    rw [hok] at hok'
    have hdb : db1 = db1' := by
      injection hok'
    subst hdb
    rw [huniq y hy hyi]
    have hc : ¬(retryable ≠ some false ∧ r.retryCount < r.maxRetries) := by
      rintro ⟨-, hlt⟩
      omega
    simp [if_neg hc]

/-- Witness for C4: unknown id errors; a stored row with `retryCount =
2 = maxRetries − 1` goes to RETRYING, one with `retryCount = 3 =
maxRetries` goes to FAILED. -/
theorem markFailed_retry_vs_failed_witness :
    markFailed (mkConfig "q") 7 "boom" none 9 emptyDB = .error "not found" ∧
    (∀ y ∈ (updateRow
        ⟨[{ enqueueRow (mkConfig "q") (scenarioReq "u") none 0 0 with retryCount := 2 }], 1⟩
        0 (markFailedRow (mkConfig "q") "boom" none 9
            { enqueueRow (mkConfig "q") (scenarioReq "u") none 0 0 with
                retryCount := 2 })).rows,
      y.id = 0 → y.status = .RETRYING) ∧
    (∀ y ∈ (updateRow
        ⟨[{ enqueueRow (mkConfig "q") (scenarioReq "u") none 0 0 with retryCount := 3 }], 1⟩
        0 (markFailedRow (mkConfig "q") "boom" none 9
            { enqueueRow (mkConfig "q") (scenarioReq "u") none 0 0 with
                retryCount := 3 })).rows,
      y.id = 0 → y.status = .FAILED) := by
  refine ⟨markFailed_retry_vs_failed.1 "q" "boom" 7 none 9 emptyDB rfl, ?_, ?_⟩
  · exact markFailed_retry_vs_failed.2.2.1 "q" "boom" 0 none 9
      ⟨[{ enqueueRow (mkConfig "q") (scenarioReq "u") none 0 0 with retryCount := 2 }], 1⟩
      _ _ rfl (by decide) rfl rfl (by decide) rfl
  · exact markFailed_retry_vs_failed.2.2.2 "q" "boom" 0 none 9
      ⟨[{ enqueueRow (mkConfig "q") (scenarioReq "u") none 0 0 with retryCount := 3 }], 1⟩
      _ _ rfl (by decide) rfl rfl rfl

lemma noNewPending_map {db : DB} (hN : (db.rows.map Row.id).Nodup)
    {r : Row} (hr : r ∈ db.rows) (hrs : r.status = .RETRYING)
    (g : Row → Row) (hg : ∀ x, g x = x ∨ (g x).status ≠ .PENDING)
    (_hid : ∀ x, (g x).id = x.id) :
    ∀ y ∈ db.rows.map g, y.id = r.id → y.status ≠ .PENDING := by
  intro y hy hyi hys
  rcases List.mem_map.1 hy with ⟨x, hx, rfl⟩
  rcases hg x with hgx | hgx
  · rw [hgx] at hyi hys
    have hxr : x = r := eq_of_id_nodup hN hx hr hyi
    rw [hxr, hrs] at hys
    exact RequestStatus.noConfusion hys
  · exact hgx hys

lemma noPending_same_rows {db : DB} (hN : (db.rows.map Row.id).Nodup)
    {r : Row} (hr : r ∈ db.rows) (hrs : r.status = .RETRYING) :
    ∀ y ∈ db.rows, y.id = r.id → y.status ≠ .PENDING := by
  intro y hy hyi hys
  have hxr : y = r := eq_of_id_nodup hN hy hr hyi
  rw [hxr, hrs] at hys
  exact RequestStatus.noConfusion hys

lemma tryInsert_rows_subset {db : DB} {mk : Nat → Row} (hmk : ∀ i, (mk i).id = i) :
    ∀ y ∈ (tryInsert db mk).rows, y ∈ db.rows ∨ db.nextId ≤ y.id := by
  intro y hy
  cases hc : conflictsB db (mk db.nextId).queueName (mk db.nextId).uniqueKey with
  | true =>
      rw [tryInsert_of_conflict hc] at hy
      exact Or.inl hy
  | false =>
      rw [tryInsert_of_not_conflict hc] at hy
      rcases List.mem_append.1 hy with hy | hy
      · exact Or.inl hy
      · rcases List.mem_singleton.1 hy with rfl
        exact Or.inr (by rw [hmk])

lemma tryInsert_nextId_mono (db : DB) (mk : Nat → Row) :
    db.nextId ≤ (tryInsert db mk).nextId := by
  cases hc : conflictsB db (mk db.nextId).queueName (mk db.nextId).uniqueKey with
  | true => rw [tryInsert_of_conflict hc]
  | false => rw [tryInsert_of_not_conflict hc]; exact Nat.le_succ _

lemma enqueueBatch_rows_fresh (cfg : Config) (reqs : List Request) (prio : Option ℚ)
    (now : Nat) : ∀ db : DB,
      (∀ y ∈ (enqueueBatch cfg reqs prio now db).rows,
        y ∈ db.rows ∨ db.nextId ≤ y.id) ∧
      db.nextId ≤ (enqueueBatch cfg reqs prio now db).nextId := by
  induction reqs with
  | nil => intro db; exact ⟨fun y hy => Or.inl hy, le_refl _⟩
  | cons r rs ih =>
      intro db
      have hstep :=
        @tryInsert_rows_subset db (batchRow cfg r prio now) (fun i => rfl)
      have hmono := tryInsert_nextId_mono db (batchRow cfg r prio now)
      have hrec := ih (tryInsert db (batchRow cfg r prio now))
      constructor
      · intro y hy
        rcases hrec.1 y hy with hy2 | hy2
        · rcases hstep y hy2 with hy3 | hy3
          · exact Or.inl hy3
          · exact Or.inr hy3
        · exact Or.inr (le_trans hmono hy2)
      · exact le_trans hmono hrec.2

/-- C7: `retry(id, priority?)` on an existing row sets PENDING,
increments `retryCount` by exactly 1, clears both lease timestamps,
takes the given priority when provided and keeps the stored one
otherwise (`priority ?? request.priority`), leaves every other row
alone, and errors when the id is unknown; `next()` only ever returns a
PENDING row, and no storage operation other than `retry` can turn an
existing RETRYING row back into a PENDING one. -/
theorem retry_requeue_spec :
    (∀ (id : Nat) (prio : Option ℚ) (db : DB),
        db.rows.find? (fun x => decide (x.id = id)) = none →
        retry id prio db = .error "not found") ∧
    (∀ (id : Nat) (prio : Option ℚ) (db : DB) (r : Row),
        db.rows.find? (fun x => decide (x.id = id)) = some r →
        (db.rows.map Row.id).Nodup →
        ∃ db1, retry id prio db = .ok db1 ∧
          (∃ y ∈ db1.rows, y.id = id) ∧
          (∀ y ∈ db1.rows, y.id = id →
            y = { r with
                  status := RequestStatus.PENDING
                  priority := prio.getD r.priority
                  retryCount := r.retryCount + 1
                  processingStartedAt := none
                  processingCompletedAt := none }) ∧
          (∀ y ∈ db1.rows, y.id ≠ id → y ∈ db.rows)) ∧
    (∀ (cfg : Config) (now : Nat) (db : DB) (q : QueuedRequest),
        (next cfg now db).1 = some q →
        ∃ r ∈ db.rows, r.status = .PENDING ∧ q = mapToQueuedRequest r) ∧
    (∀ (cfg : Config) (db : DB) (op : Op), Inv db →
        (∀ (i : Nat) (p : Option ℚ), op ≠ Op.retry i p) →
        ∀ r ∈ db.rows, r.status = .RETRYING →
          ∀ y ∈ (applyOp cfg db op).rows, y.id = r.id → y.status ≠ .PENDING) := by
  refine ⟨?_, ?_, ?_, ?_⟩
  · intro id prio db hfind
    unfold retry
    rw [hfind]
  · intro id prio db r hfind hN
    obtain ⟨hr, hri⟩ := find?_id_spec hfind
    refine ⟨updateRow db id (retryRow prio r), retry_ok prio hfind, ?_⟩
    obtain ⟨hex, huniq, hother⟩ :=
      updateRow_unique hN hr hri (retryRow prio r) (fun x => rfl)
    exact ⟨hex, fun y hy hyi => huniq y hy hyi, hother⟩
  · intro cfg now db q hq
    cases hf : findFirstPending cfg db with
    | none =>
        rw [next_of_none now (findFirstPending_none.1 hf)] at hq
        cases hq
    | some r =>
        obtain ⟨hmem, _⟩ := findFirstPending_some hf
        obtain ⟨hrows, _, hst⟩ := mem_pendingRows.1 hmem
        rw [next_of_some now hf] at hq
        exact ⟨r, hrows, hst, by simpa using hq.symm⟩
  · intro cfg db op hInv hne r hr hrs
    obtain ⟨hall, hN⟩ := hInv
    have hidlt : r.id < db.nextId := (hall r hr).2
    cases op with
    | enqueue req prio now =>
        intro y hy hyi hys
        rcases @tryInsert_rows_subset db (enqueueRow cfg req prio now)
            (fun i => rfl) y hy with hy2 | hy2
        · exact noPending_same_rows hN hr hrs y hy2 hyi hys
        · omega
    | enqueueBatch reqs prio now =>
        intro y hy hyi hys
        rcases (enqueueBatch_rows_fresh cfg reqs prio now db).1 y hy with hy2 | hy2
        · exact noPending_same_rows hN hr hrs y hy2 hyi hys
        · omega
    | next now =>
        show ∀ y ∈ (next cfg now db).2.rows, y.id = r.id → y.status ≠ .PENDING
        cases hf : findFirstPending cfg db with
        | none =>
            rw [next_of_none now (findFirstPending_none.1 hf)]
            exact noPending_same_rows hN hr hrs
        | some r' =>
            rw [next_of_some now hf]
            refine noNewPending_map hN hr hrs _ (fun x => ?_) (fun x => ?_)
            · by_cases hxi : x.id = r'.id
              · rw [if_pos hxi]; exact Or.inr (by simp)
              · rw [if_neg hxi]; exact Or.inl rfl
            · by_cases hxi : x.id = r'.id
              · rw [if_pos hxi]
              · rw [if_neg hxi]
    | markProcessed id now =>
        show ∀ y ∈ (exceptToState db (markProcessed id now db)).rows,
          y.id = r.id → y.status ≠ .PENDING
        cases hfind : db.rows.find? (fun x => decide (x.id = id)) with
        | none =>
            have he : markProcessed id now db = .error "P2025" := by
              unfold markProcessed; rw [hfind]
            rw [he]
            exact noPending_same_rows hN hr hrs
        | some r' =>
            rw [markProcessed_ok now hfind]
            refine noNewPending_map hN hr hrs _ (fun x => ?_) (fun x => ?_)
            · by_cases hxi : x.id = id
              · rw [if_pos hxi]; exact Or.inr (by simp)
              · rw [if_neg hxi]; exact Or.inl rfl
            · by_cases hxi : x.id = id
              · rw [if_pos hxi]
              · rw [if_neg hxi]
    | markFailed id err retryable now =>
        show ∀ y ∈ (exceptToState db (markFailed cfg id err retryable now db)).rows,
          y.id = r.id → y.status ≠ .PENDING
        cases hfind : db.rows.find? (fun x => decide (x.id = id)) with
        | none =>
            have he : markFailed cfg id err retryable now db = .error "not found" := by
              unfold markFailed; rw [hfind]
            rw [he]
            exact noPending_same_rows hN hr hrs
        | some r' =>
            rw [markFailed_ok err retryable now hfind]
            refine noNewPending_map hN hr hrs _ (fun x => ?_) (fun x => ?_)
            · by_cases hxi : x.id = id
              · rw [if_pos hxi]
                refine Or.inr ?_
                unfold markFailedRow
                split <;> simp
              · rw [if_neg hxi]; exact Or.inl rfl
            · by_cases hxi : x.id = id
              · rw [if_pos hxi]; rfl
              · rw [if_neg hxi]
    | retry i p => exact absurd rfl (hne i p)
    | reclaimSweep now =>
        show ∀ y ∈ (db.rows.map (reclaimRow cfg now)), y.id = r.id → y.status ≠ .PENDING
        refine noNewPending_map hN hr hrs _ (fun x => ?_) (fun x => ?_)
        · unfold reclaimRow
          split
          · exact Or.inr (by simp)
          · exact Or.inl rfl
        · unfold reclaimRow
          split <;> rfl
    | removeIds ids =>
        intro y hy hyi
        exact noPending_same_rows hN hr hrs y (List.mem_of_mem_filter hy) hyi
    | clear =>
        intro y hy hyi
        exact noPending_same_rows hN hr hrs y (List.mem_of_mem_filter hy) hyi

/-- Witness for C7 at concrete inputs: unknown id errors; a stored
RETRYING row is requeued; the scenario `next()` returns a PENDING row;
`markProcessed` cannot re-PENDING a RETRYING row. -/
theorem retry_requeue_spec_witness :
    retry 7 none emptyDB = .error "not found" ∧
    (∃ db1, retry 0 (some (mkRat 3 4))
        ⟨[{ enqueueRow (mkConfig "q") (scenarioReq "u") none 0 0 with
            status := RequestStatus.RETRYING, retryCount := 1,
            processingStartedAt := some 5, processingCompletedAt := some 9 }], 1⟩
      = .ok db1 ∧ ∃ y ∈ db1.rows, y.id = 0) ∧
    (∃ r ∈ scenarioDB.rows, r.status = .PENDING ∧
        mapToQueuedRequest scenarioRowB = mapToQueuedRequest r) ∧
    (∀ y ∈ (applyOp (mkConfig "q")
        ⟨[{ enqueueRow (mkConfig "q") (scenarioReq "u") none 0 0 with
            status := RequestStatus.RETRYING, retryCount := 1,
            processingStartedAt := some 5, processingCompletedAt := some 9 }], 1⟩
        (Op.markProcessed 0 9)).rows,
      y.id = 0 → y.status ≠ .PENDING) := by
  refine ⟨retry_requeue_spec.1 7 none emptyDB rfl, ?_, ?_, ?_⟩
  · obtain ⟨db1, hok, hex, -, -⟩ :=
      retry_requeue_spec.2.1 0 (some (mkRat 3 4))
        ⟨[{ enqueueRow (mkConfig "q") (scenarioReq "u") none 0 0 with
            status := RequestStatus.RETRYING, retryCount := 1,
            processingStartedAt := some 5, processingCompletedAt := some 9 }], 1⟩
        _ rfl (by decide)
    exact ⟨db1, hok, hex⟩
  · exact retry_requeue_spec.2.2.1 scenarioCfg 10 scenarioDB
      (mapToQueuedRequest scenarioRowB) (by decide)
  · exact retry_requeue_spec.2.2.2 (mkConfig "q")
      ⟨[{ enqueueRow (mkConfig "q") (scenarioReq "u") none 0 0 with
          status := RequestStatus.RETRYING, retryCount := 1,
          processingStartedAt := some 5, processingCompletedAt := some 9 }], 1⟩
      (Op.markProcessed 0 9) (by unfold Inv RowInv; decide)
      (fun i p h => Op.noConfusion h) _ (List.mem_cons_self _ _) rfl

/-- C5: one reclaim sweep maps each row through `reclaimRow`; a row
matches exactly when it belongs to this queue, is PROCESSING, and its
`processingStartedAt` predates `now − processingTimeout`; a matching
row becomes RETRYING with `retryCount` incremented by exactly 1 and
every other field unchanged; a non-matching row is untouched; and a row
reclaimed once no longer matches, so a second sweep (at any later time)
leaves it as the first sweep did. -/
theorem reclaimSweep_spec :
    (∀ (cfg : Config) (now : Nat) (db : DB),
        (reclaimSweep cfg now db).rows = db.rows.map (reclaimRow cfg now)) ∧
    (∀ (cfg : Config) (now : Nat) (r : Row),
        reclaimMatchesB cfg now r = true ↔
          r.queueName = cfg.name ∧ r.status = .PROCESSING ∧
            ∃ t, r.processingStartedAt = some t ∧ t < now - cfg.processingTimeout) ∧
    (∀ (cfg : Config) (now : Nat) (r : Row),
        reclaimMatchesB cfg now r = true →
          reclaimRow cfg now r
            = { r with status := RequestStatus.RETRYING,
                       retryCount := r.retryCount + 1 }) ∧
    (∀ (cfg : Config) (now : Nat) (r : Row),
        reclaimMatchesB cfg now r = false → reclaimRow cfg now r = r) ∧
    (∀ (cfg : Config) (now now2 : Nat) (r : Row),
        reclaimMatchesB cfg now r = true →
          reclaimRow cfg now2 (reclaimRow cfg now r) = reclaimRow cfg now r) := by
  have h3 : ∀ (cfg : Config) (now : Nat) (r : Row),
      reclaimMatchesB cfg now r = true →
        reclaimRow cfg now r
          = { r with status := RequestStatus.RETRYING,
                     retryCount := r.retryCount + 1 } := by
    intro cfg now r h
    simp [reclaimRow, h]
  refine ⟨fun cfg now db => rfl, ?_, h3, ?_, ?_⟩
  · intro cfg now r
    cases hst : r.processingStartedAt with
    | none => simp [reclaimMatchesB, hst]
    | some t => simp [reclaimMatchesB, hst, and_assoc]
  · intro cfg now r h
    simp [reclaimRow, h]
  · intro cfg now now2 r h
    rw [h3 cfg now r h]
    have hm2 : reclaimMatchesB cfg now2
        { r with status := RequestStatus.RETRYING,
                 retryCount := r.retryCount + 1 } = false := by
      simp [reclaimMatchesB]
    simp [reclaimRow, hm2]

/-- Witness for C5: a stale PROCESSING lease (started at 5, swept at
600000 with the 300000 ms timeout) is reclaimed to RETRYING with
`retryCount` 0 → 1; a PENDING row is untouched; the second sweep
changes nothing. -/
theorem reclaimSweep_spec_witness :
    reclaimRow (mkConfig "q") 600000
        { enqueueRow (mkConfig "q") (scenarioReq "u") none 0 0 with
            status := RequestStatus.PROCESSING, processingStartedAt := some 5 }
      = { { enqueueRow (mkConfig "q") (scenarioReq "u") none 0 0 with
              status := RequestStatus.PROCESSING, processingStartedAt := some 5 } with
            status := RequestStatus.RETRYING, retryCount := 1 } ∧
    reclaimRow (mkConfig "q") 600000 (enqueueRow (mkConfig "q") (scenarioReq "u") none 0 0)
      = enqueueRow (mkConfig "q") (scenarioReq "u") none 0 0 ∧
    reclaimRow (mkConfig "q") 900000
        (reclaimRow (mkConfig "q") 600000
          { enqueueRow (mkConfig "q") (scenarioReq "u") none 0 0 with
              status := RequestStatus.PROCESSING, processingStartedAt := some 5 })
      = reclaimRow (mkConfig "q") 600000
          { enqueueRow (mkConfig "q") (scenarioReq "u") none 0 0 with
              status := RequestStatus.PROCESSING, processingStartedAt := some 5 } :=
  ⟨reclaimSweep_spec.2.2.1 (mkConfig "q") 600000 _ (by decide),
   reclaimSweep_spec.2.2.2.1 (mkConfig "q") 600000 _ (by decide),
   reclaimSweep_spec.2.2.2.2 (mkConfig "q") 600000 900000 _ (by decide)⟩

lemma filter_status_partition (cfg : Config) : ∀ l : List Row,
    (l.filter (fun r => decide (r.queueName = cfg.name ∧ r.status = RequestStatus.PENDING))).length +
      (l.filter (fun r => decide (r.queueName = cfg.name ∧ r.status = RequestStatus.PROCESSING))).length +
      (l.filter (fun r => decide (r.queueName = cfg.name ∧ r.status = RequestStatus.PROCESSED))).length +
      (l.filter (fun r => decide (r.queueName = cfg.name ∧ r.status = RequestStatus.FAILED))).length +
      (l.filter (fun r => decide (r.queueName = cfg.name ∧ r.status = RequestStatus.RETRYING))).length
      = (l.filter (fun r => decide (r.queueName = cfg.name))).length := by
  intro l
  induction l with
  | nil => rfl
  | cons r l ih =>
      by_cases hq : r.queueName = cfg.name
      · cases hs : r.status <;>
          · simp [List.filter_cons, hq, hs] at ih ⊢
            omega
      · simp [List.filter_cons, hq] at ih ⊢
        omega

lemma insertByCompletedDesc_length (r : Row) : ∀ l : List Row,
    (insertByCompletedDesc r l).length = l.length + 1 := by
  intro l
  induction l with
  | nil => rfl
  | cons x xs ih =>
      unfold insertByCompletedDesc
      split
      · simp
      · simp only [List.length_cons, ih]

lemma sortByCompletedDesc_length : ∀ l : List Row,
    (sortByCompletedDesc l).length = l.length := by
  intro l
  induction l with
  | nil => rfl
  | cons x xs ih =>
      unfold sortByCompletedDesc
      rw [insertByCompletedDesc_length, ih]
      rfl

lemma completedRequests_length (cfg : Config) (db : DB) :
    (completedRequests cfg db).length = min 100 (completedSampleRows cfg db).length := by
  unfold completedRequests
  rw [List.length_take, sortByCompletedDesc_length]

lemma getStats_avg_eq (cfg : Config) (db : DB) :
    (getStats cfg db).avgProcessingTime =
      if (completedRequests cfg db).length = 0 then none
      else some ((((completedRequests cfg db).map rowDuration).sum : ℚ)
        / ((completedRequests cfg db).length : ℚ)) := rfl

/-- C9: `getStats` reports the five per-status counts and a total for
this queue (and the counts partition the total); the average latency is
computed over the at-most-100 most recently completed PROCESSED rows as
the mean of `processingCompletedAt − processingStartedAt`, and it is
absent — not zero — exactly when no such sample exists. -/
theorem getStats_spec :
    (∀ (cfg : Config) (db : DB),
        (getStats cfg db).total = (queueRows cfg db).length ∧
        (getStats cfg db).pending = countStatus cfg db .PENDING ∧
        (getStats cfg db).processing = countStatus cfg db .PROCESSING ∧
        (getStats cfg db).processed = countStatus cfg db .PROCESSED ∧
        (getStats cfg db).failed = countStatus cfg db .FAILED ∧
        (getStats cfg db).retrying = countStatus cfg db .RETRYING) ∧
    (∀ (cfg : Config) (db : DB),
        (getStats cfg db).pending + (getStats cfg db).processing +
          (getStats cfg db).processed + (getStats cfg db).failed +
          (getStats cfg db).retrying = (getStats cfg db).total) ∧
    (∀ (cfg : Config) (db : DB),
        (getStats cfg db).avgProcessingTime = none ↔
          completedSampleRows cfg db = []) ∧
    (∀ (cfg : Config) (db : DB), (completedRequests cfg db).length ≤ 100) ∧
    (∀ (cfg : Config) (db : DB) (a : ℚ),
        (getStats cfg db).avgProcessingTime = some a →
          a * ((completedRequests cfg db).length : ℚ)
            = (((completedRequests cfg db).map rowDuration).sum : ℚ)) := by
  refine ⟨fun cfg db => ⟨rfl, rfl, rfl, rfl, rfl, rfl⟩, ?_, ?_, ?_, ?_⟩
  · intro cfg db
    exact filter_status_partition cfg db.rows
  · intro cfg db
    rw [getStats_avg_eq]
    by_cases hlen : (completedRequests cfg db).length = 0
    · rw [if_pos hlen]
      simp only [true_iff]
      rw [completedRequests_length] at hlen
      rw [← List.length_eq_zero]
      omega
    · rw [if_neg hlen]
      simp only [reduceCtorEq, false_iff]
      intro hnil
      rw [completedRequests_length, hnil] at hlen
      simp at hlen
  · intro cfg db
    rw [completedRequests_length]
    exact min_le_left _ _
  · intro cfg db a ha
    rw [getStats_avg_eq] at ha
    by_cases hlen : (completedRequests cfg db).length = 0
    · rw [if_pos hlen] at ha
      cases ha
    · rw [if_neg hlen] at ha
      have ha' : a = (((completedRequests cfg db).map rowDuration).sum : ℚ)
          / ((completedRequests cfg db).length : ℚ) := by
        injection ha with h
        exact h.symm
      rw [ha']
      exact div_mul_cancel₀ _ (Nat.cast_ne_zero.2 hlen)

/-- Witness for C9: on a queue holding exactly one PROCESSED row with
lease stamps 5 and 9, the defined average multiplied by the sample
count equals the summed latency. -/
theorem getStats_spec_witness :
    (((completedRequests (mkConfig "q")
          ⟨[{ enqueueRow (mkConfig "q") (scenarioReq "u") none 0 0 with
                status := RequestStatus.PROCESSED,
                processingStartedAt := some 5,
                processingCompletedAt := some 9 }], 1⟩).map rowDuration).sum : ℚ)
        / ((completedRequests (mkConfig "q")
          ⟨[{ enqueueRow (mkConfig "q") (scenarioReq "u") none 0 0 with
                status := RequestStatus.PROCESSED,
                processingStartedAt := some 5,
                processingCompletedAt := some 9 }], 1⟩).length : ℚ)
        * ((completedRequests (mkConfig "q")
          ⟨[{ enqueueRow (mkConfig "q") (scenarioReq "u") none 0 0 with
                status := RequestStatus.PROCESSED,
                processingStartedAt := some 5,
                processingCompletedAt := some 9 }], 1⟩).length : ℚ)
      = (((completedRequests (mkConfig "q")
          ⟨[{ enqueueRow (mkConfig "q") (scenarioReq "u") none 0 0 with
                status := RequestStatus.PROCESSED,
                processingStartedAt := some 5,
                processingCompletedAt := some 9 }], 1⟩).map rowDuration).sum : ℚ) :=
  getStats_spec.2.2.2.2 (mkConfig "q")
    ⟨[{ enqueueRow (mkConfig "q") (scenarioReq "u") none 0 0 with
          status := RequestStatus.PROCESSED,
          processingStartedAt := some 5,
          processingCompletedAt := some 9 }], 1⟩ _ rfl

end Filmdex
